import Mathlib

/-!
Verification of the fuzzy file-to-episode matching engine of the
`plex-scripts` repository: the Levenshtein utilities from
`src/util/levenshtein.ts`, the episode ordering from
`src/controllers/tvdb.controller.ts` (`getSeriesEpisodes`), and the
matching orchestrator loop of the renamer entry point (`main`).

JavaScript strings are modelled as lists of character codes
(`List Nat`); all functions below are direct translations of the
TypeScript source.
-/

namespace PlexScripts

/-- A JavaScript string, modelled as its list of character codes. -/
abbrev JStr := List Nat

/-- Turns a Lean string literal into the `JStr` model (code points). -/
def str (s : String) : JStr := s.toList.map Char.toNat

/-! ### Levenshtein distance, reference definition

Reference (textbook) recursive edit distance, used as specification to
reason about the dynamic-programming implementation translated below. -/

/-- Textbook recursive Levenshtein distance over code lists: minimum
number of insertions, deletions and substitutions. -/
def lev : List Nat → List Nat → Nat
  | [], ys => ys.length
  | x :: xs, [] => (x :: xs).length
  | x :: xs, y :: ys =>
      min (lev xs (y :: ys) + 1)
        (min (lev (x :: xs) ys + 1)
          (lev xs ys + (if x = y then 0 else 1)))
  termination_by xs ys => xs.length + ys.length
  decreasing_by all_goals simp_arith

/-! ### Levenshtein distance, source translation

Translation of `calculateLevenshteinDistance` from
`src/util/levenshtein.ts`: two-row dynamic programming.  `levRow`
computes entries `j = j0+1 .. n` of the current row given the suffix of
`s2` starting at `j0`, the suffix of the previous row starting at
`j0 - 1` ... wait, starting at `j0`, and the entry `currentRow[j0]`
(`left`). -/

/-- Inner loop of the DP (`for (let j = 1; j <= n; j++)`): produces the
current row entries past position 0.  Arguments: current `s1` character
`c`, remaining `s2` characters, remaining previous-row entries
(starting at `prevRow[j-1]`), and `left = currentRow[j-1]`. -/
def levRow (c : Nat) : List Nat → List Nat → Nat → List Nat
  | b :: bs, pjm1 :: rest, left =>
      let cost : Nat := if c = b then 0 else 1
      let pj := rest.headD 0
      let cur := min (left + 1) (min (pj + 1) (pjm1 + cost))
      cur :: levRow c bs rest cur
  | _, _, _ => []

/-- Outer loop of the DP (`for (let i = 1; i <= m; i++)`): folds the
rows over the characters of `s1`, keeping the row index `i`. -/
def levFold (s2 : List Nat) : List Nat → Nat → List Nat → List Nat
  | [], _, prev => prev
  | c :: cs, i, prev => levFold s2 cs (i + 1) (i :: levRow c s2 prev i)

/-- Translation of `calculateLevenshteinDistance(s1, s2)`. -/
def calculateLevenshteinDistance (s1 s2 : JStr) : Nat :=
  let m := s1.length
  let n := s2.length
  if m = 0 then n
  else if n = 0 then m
  else (levFold s2 s1 1 (List.range (n + 1))).getD n 0

/-- Translation of `isDistanceLessThan(str1, str2, maxDistance)`.  The
`maxDistance <= 0` guard comes first, then the equality fast path, then
the length-difference short-circuit, then the full DP. -/
def isDistanceLessThan (str1 str2 : JStr) (maxDistance : Int) : Bool :=
  if maxDistance ≤ 0 then false
  else if str1 = str2 then true
  else if ((str1.length : Int) - (str2.length : Int)).natAbs ≥ maxDistance then false
  else decide ((calculateLevenshteinDistance str1 str2 : Int) < maxDistance)

/-! ### Correctness of the DP against the reference definition -/

/-- Expected row segment: entry `j` of the DP row holds the distance
between the reversed consumed prefix of `s1` (`x`) and the reversed
prefix of `s2` of length `j`; `brev` is the reversed prefix consumed so
far, `s` the remaining suffix of `s2`. -/
def rowSeg (x : JStr) (brev : JStr) : JStr → List Nat
  | [] => [lev x brev]
  | b :: bs => lev x brev :: rowSeg x (b :: brev) bs

theorem rowSeg_cons_head (x brev : JStr) (s : JStr) :
    rowSeg x brev s = lev x brev :: (rowSeg x brev s).tail := by
  cases s <;> simp [rowSeg]

theorem lev_nil_right (x : JStr) : lev x [] = x.length := by
  cases x <;> simp [lev]

theorem levRow_spec (c : Nat) :
    ∀ (s : JStr) (x brev : JStr),
      levRow c s (rowSeg x brev s) (lev (c :: x) brev)
        = (rowSeg (c :: x) brev s).tail := by
  intro s
  induction s with
  | nil => intro x brev; simp [rowSeg, levRow]
  | cons b bs ih =>
      intro x brev
      have hhead : (rowSeg x (b :: brev) bs).headD 0 = lev x (b :: brev) := by
        cases bs <;> simp [rowSeg]
      have hstep : min (lev (c :: x) brev + 1)
          (min (lev x (b :: brev) + 1)
            (lev x brev + (if c = b then 0 else 1)))
          = lev (c :: x) (b :: brev) := by
        rw [show lev (c :: x) (b :: brev)
            = min (lev x (b :: brev) + 1)
                (min (lev (c :: x) brev + 1)
                  (lev x brev + (if c = b then 0 else 1))) from by
          simp [lev]]
        omega
      calc levRow c (b :: bs) (rowSeg x brev (b :: bs)) (lev (c :: x) brev)
          = lev (c :: x) (b :: brev)
              :: levRow c bs (rowSeg x (b :: brev) bs) (lev (c :: x) (b :: brev)) := by
            simp only [rowSeg, levRow, hhead, hstep]
        _ = lev (c :: x) (b :: brev) :: (rowSeg (c :: x) (b :: brev) bs).tail := by
            rw [ih]
        _ = rowSeg (c :: x) (b :: brev) bs :=
            (rowSeg_cons_head (c :: x) (b :: brev) bs).symm
        _ = (rowSeg (c :: x) brev (b :: bs)).tail := rfl

theorem levFold_spec (s2 : JStr) :
    ∀ (s1suf : JStr) (x : JStr),
      levFold s2 s1suf (x.length + 1) (rowSeg x [] s2)
        = rowSeg (s1suf.reverse ++ x) [] s2 := by
  intro s1suf
  induction s1suf with
  | nil => intro x; simp [levFold]
  | cons c cs ih =>
      intro x
      have hrow : (x.length + 1) :: levRow c s2 (rowSeg x [] s2) (x.length + 1)
          = rowSeg (c :: x) [] s2 := by
        have h1 : lev (c :: x) ([] : JStr) = x.length + 1 := by
          simp [lev_nil_right]
        calc (x.length + 1) :: levRow c s2 (rowSeg x [] s2) (x.length + 1)
            = lev (c :: x) [] :: levRow c s2 (rowSeg x [] s2) (lev (c :: x) []) := by
              rw [h1]
          _ = lev (c :: x) [] :: (rowSeg (c :: x) [] s2).tail := by
              rw [levRow_spec]
          _ = rowSeg (c :: x) [] s2 := (rowSeg_cons_head (c :: x) [] s2).symm
      have hlen : (c :: x).length + 1 = x.length + 1 + 1 := by simp
      calc levFold s2 (c :: cs) (x.length + 1) (rowSeg x [] s2)
          = levFold s2 cs (x.length + 1 + 1)
              ((x.length + 1) :: levRow c s2 (rowSeg x [] s2) (x.length + 1)) := rfl
        _ = levFold s2 cs ((c :: x).length + 1) (rowSeg (c :: x) [] s2) := by
            rw [hrow, hlen]
        _ = rowSeg (cs.reverse ++ (c :: x)) [] s2 := ih (c :: x)
        _ = rowSeg ((c :: cs).reverse ++ x) [] s2 := by
            simp

theorem rowSeg_getD_length :
    ∀ (s : JStr) (x brev : JStr),
      (rowSeg x brev s).getD s.length 0 = lev x (s.reverse ++ brev) := by
  intro s
  induction s with
  | nil => intro x brev; simp [rowSeg]
  | cons b bs ih =>
      intro x brev
      have : (rowSeg x brev (b :: bs)).getD (b :: bs).length 0
          = (rowSeg x (b :: brev) bs).getD bs.length 0 := by
        simp [rowSeg]
      rw [this, ih]
      simp

theorem range_eq_rowSeg_nil (s2 : JStr) :
    List.range (s2.length + 1) = rowSeg [] [] s2 := by
  have key : ∀ (s : JStr) (brev : JStr),
      rowSeg [] brev s = List.range' brev.length (s.length + 1) := by
    intro s
    induction s with
    | nil => intro brev; simp [rowSeg, lev, List.range']
    | cons b bs ih =>
        intro brev
        rw [show rowSeg ([] : JStr) brev (b :: bs)
            = lev [] brev :: rowSeg [] (b :: brev) bs from rfl]
        rw [ih (b :: brev)]
        simp [lev, List.range'_succ]
  rw [key s2 []]
  simp [List.range_eq_range']

/-- The DP implementation computes the reference distance on the
reversed inputs. -/
theorem calc_eq_lev_reverse (s1 s2 : JStr) :
    calculateLevenshteinDistance s1 s2 = lev s1.reverse s2.reverse := by
  unfold calculateLevenshteinDistance
  by_cases h1 : s1.length = 0
  · have : s1 = [] := List.length_eq_zero.mp h1
    subst this
    simp [lev]
  · by_cases h2 : s2.length = 0
    · have : s2 = [] := List.length_eq_zero.mp h2
      subst this
      simp [h1, lev_nil_right]
    · simp only [h1, h2, if_false]
      rw [range_eq_rowSeg_nil s2]
      rw [show (1 : Nat) = List.length ([] : JStr) + 1 from rfl]
      rw [levFold_spec s2 s1 []]
      rw [show s1.reverse ++ ([] : JStr) = s1.reverse from List.append_nil _]
      rw [rowSeg_getD_length s2 s1.reverse []]
      simp

/-! ### Facts about the reference distance -/

theorem lev_cons_cons (x y : Nat) (xs ys : JStr) :
    lev (x :: xs) (y :: ys)
      = min (lev xs (y :: ys) + 1)
          (min (lev (x :: xs) ys + 1)
            (lev xs ys + (if x = y then 0 else 1))) := by
  rw [lev]

theorem lev_self (a : JStr) : lev a a = 0 := by
  induction a with
  | nil => simp [lev]
  | cons x xs ih =>
      rw [lev_cons_cons, ih]
      simp

theorem lev_symm : ∀ (a b : JStr), lev a b = lev b a := by
  intro a
  induction a with
  | nil => intro b; cases b <;> simp [lev]
  | cons x xs ihx =>
      intro b
      induction b with
      | nil => simp [lev, lev_nil_right]
      | cons y ys ihy =>
          rw [lev_cons_cons, lev_cons_cons, ihx (y :: ys), ihx ys, ihy]
          have hc : (if x = y then 0 else 1) = (if y = x then 0 else 1) := by
            by_cases h : x = y
            · subst h; simp
            · rw [if_neg h, if_neg (fun hyx => h hyx.symm)]
          rw [hc]
          omega

theorem length_le_lev_add : ∀ (a b : JStr), a.length ≤ lev a b + b.length := by
  intro a
  induction a with
  | nil => intro b; simp
  | cons x xs ihx =>
      intro b
      induction b with
      | nil => rw [lev_nil_right]; simp
      | cons y ys ihy =>
          rw [lev_cons_cons]
          have h1 := ihx (y :: ys)
          have h2 := ihy
          have h3 := ihx ys
          simp only [List.length_cons] at *
          by_cases h : x = y
          · subst h
            rw [if_pos rfl]
            omega
          · rw [if_neg h]
            omega

theorem calc_self (a : JStr) : calculateLevenshteinDistance a a = 0 := by
  rw [calc_eq_lev_reverse, lev_self]

theorem calc_symm (a b : JStr) :
    calculateLevenshteinDistance a b = calculateLevenshteinDistance b a := by
  rw [calc_eq_lev_reverse, calc_eq_lev_reverse, lev_symm]

theorem abs_length_diff_le_calc (a b : JStr) :
    ((a.length : Int) - (b.length : Int)).natAbs ≤ calculateLevenshteinDistance a b := by
  have h1 : a.length ≤ calculateLevenshteinDistance a b + b.length := by
    rw [calc_eq_lev_reverse]
    have := length_le_lev_add a.reverse b.reverse
    simpa using this
  have h2 : b.length ≤ calculateLevenshteinDistance a b + a.length := by
    rw [calc_symm, calc_eq_lev_reverse]
    have := length_le_lev_add b.reverse a.reverse
    simpa using this
  omega

/-! ### Claim theorems about the Levenshtein utilities -/

/-- C1, counterexample: the claim says `isSimilar(a, a, 0)` returns
true via the equality short-circuit; on the code the `maxDistance <= 0`
guard fires first, so `isDistanceLessThan("a", "a", 0)` is `false`. -/
theorem c1_counterexample :
    isDistanceLessThan (str "a") (str "a") 0 = false := by
  rfl

/-- C1 (amended): for all strings `a`, `b` — identical or not —
`isSimilar(a, b, 0)` returns false, because the `maxDistance <= 0`
guard precedes the equality short-circuit. -/
theorem c1_isDistanceLessThan_zero (a b : JStr) :
    isDistanceLessThan a b 0 = false := by
  unfold isDistanceLessThan
  rw [if_pos le_rfl]

/-- C4: for `maxDistance > 0`, `isDistanceLessThan(a, b, maxDistance)`
agrees with the naive comparison
`calculateLevenshteinDistance(a, b) < maxDistance`; the equality fast
path and the length-difference short-circuit never change the result. -/
theorem c4_isDistanceLessThan_eq_naive (a b : JStr) (maxD : Int) (h : 0 < maxD) :
    isDistanceLessThan a b maxD
      = decide ((calculateLevenshteinDistance a b : Int) < maxD) := by
  unfold isDistanceLessThan
  rw [if_neg (by omega)]
  by_cases hab : a = b
  · subst hab
    rw [if_pos rfl]
    have h0 : calculateLevenshteinDistance a a = 0 := calc_self a
    rw [h0]
    symm
    simp only [decide_eq_true_eq]
    omega
  · rw [if_neg hab]
    by_cases hlen : ((((a.length : Int) - (b.length : Int)).natAbs : Int) ≥ maxD)
    · rw [if_pos hlen]
      have hb := abs_length_diff_le_calc a b
      symm
      simp only [decide_eq_false_iff_not, not_lt]
      omega
    · rw [if_neg hlen]

/-- C4 witness at concrete inputs. -/
theorem c4_witness :
    (0 : Int) < 3 ∧ isDistanceLessThan (str "kitten") (str "sitting") 3
      = decide ((calculateLevenshteinDistance (str "kitten") (str "sitting") : Int) < 3) :=
  ⟨by decide, c4_isDistanceLessThan_eq_naive (str "kitten") (str "sitting") 3 (by decide)⟩

/-- C5: `calculateLevenshteinDistance` is symmetric in its two
arguments. -/
theorem c5_distance_symm (a b : JStr) :
    calculateLevenshteinDistance a b = calculateLevenshteinDistance b a :=
  calc_symm a b

/-! ### Name normalization

Translation of the inline normalization in `main`
(`episodeNameSimplified` and `fileNameSimplified`):
`.replace(/[^a-zA-Z0-9]/g, '').toLowerCase()`.  After the filter only
ASCII alphanumerics remain, on which JavaScript `toLowerCase` is
exactly the ASCII case map modelled by `toLowerCode`. -/

/-- Matches the regex class `[a-zA-Z0-9]` on a character code. -/
def isAlnumCode (c : Nat) : Bool :=
  decide ((65 ≤ c ∧ c ≤ 90) ∨ (97 ≤ c ∧ c ≤ 122) ∨ (48 ≤ c ∧ c ≤ 57))

/-- ASCII lowercasing of a character code. -/
def toLowerCode (c : Nat) : Nat :=
  if 65 ≤ c ∧ c ≤ 90 then c + 32 else c

/-- Translation of `s.replace(/[^a-zA-Z0-9]/g, '').toLowerCase()`. -/
def simplify (s : JStr) : JStr :=
  (s.filter isAlnumCode).map toLowerCode

theorem alnum_toLowerCode (c : Nat) (h : isAlnumCode c = true) :
    isAlnumCode (toLowerCode c) = true ∧ toLowerCode (toLowerCode c) = toLowerCode c := by
  unfold isAlnumCode toLowerCode at *
  rw [decide_eq_true_eq] at h
  constructor
  · rw [decide_eq_true_eq]
    split_ifs <;> omega
  · split_ifs <;> omega

/-- C9: the normalization transform is idempotent. -/
theorem c9_simplify_idempotent (s : JStr) :
    simplify (simplify s) = simplify s := by
  unfold simplify
  induction s with
  | nil => rfl
  | cons c cs ih =>
      by_cases h : isAlnumCode c = true
      · rw [List.filter_cons_of_pos h, List.map_cons,
          List.filter_cons_of_pos (alnum_toLowerCode c h).1, List.map_cons,
          (alnum_toLowerCode c h).2, ih]
      · rw [List.filter_cons_of_neg (by simpa using h)]
        exact ih

/-! ### Episode ordering, from `getSeriesEpisodes`

Translation of the sort comparator in
`src/controllers/tvdb.controller.ts` lines 133-146.  The surrounding
paginated fetch and on-disk caching are external I/O; the pure
algorithmic content is the comparator and the sort. -/

/-- An episode record; only the fields the matching core reads are
modelled (`id` for the skip warning, ordering keys, nullable display
name). -/
structure Episode where
  id : Int
  seasonNumber : Int
  number : Int
  name : Option JStr
deriving DecidableEq

/-- The sort comparator passed to `episodes.sort` in
`getSeriesEpisodes`. -/
def episodeCompare (a b : Episode) : Int :=
  if a.seasonNumber = b.seasonNumber then a.number - b.number
  else if a.seasonNumber = 0 then 1
  else if b.seasonNumber = 0 then -1
  else a.seasonNumber - b.seasonNumber

/-- Boolean order induced by the comparator (`compare(a, b) <= 0`),
which is what a consistent JavaScript `Array.prototype.sort` realizes. -/
def episodeLE (a b : Episode) : Bool :=
  decide (episodeCompare a b ≤ 0)

/-- Model of the sorting step of `getSeriesEpisodes`: the fetched
episode list sorted by the comparator. -/
def sortEpisodes (es : List Episode) : List Episode :=
  es.mergeSort episodeLE

theorem episodeLE_trans (a b c : Episode)
    (h1 : episodeLE a b) (h2 : episodeLE b c) : episodeLE a c := by
  unfold episodeLE episodeCompare at *
  rw [decide_eq_true_eq] at *
  split_ifs at * <;> omega

theorem episodeLE_total (a b : Episode) : episodeLE a b || episodeLE b a := by
  simp only [episodeLE, Bool.or_eq_true, decide_eq_true_eq]
  unfold episodeCompare
  split_ifs <;> omega

theorem sortEpisodes_pairwise (es : List Episode) :
    (sortEpisodes es).Pairwise (fun a b => episodeLE a b = true) := by
  have h := List.sorted_mergeSort
    (fun a b c h1 h2 => episodeLE_trans a b c h1 h2)
    episodeLE_total es
  simpa [sortEpisodes] using h

/-- C6: in the list returned by (the sorting step of)
`getSeriesEpisodes`, season 0 episodes come after every episode with a
non-zero season, non-zero seasons appear in ascending order, and
within a season episode numbers are ascending. -/
theorem c6_episode_order (es : List Episode) (i j : Nat) (a b : Episode)
    (hij : i < j)
    (ha : (sortEpisodes es).get? i = some a)
    (hb : (sortEpisodes es).get? j = some b) :
    (a.seasonNumber = 0 → b.seasonNumber = 0)
    ∧ (a.seasonNumber ≠ 0 → b.seasonNumber ≠ 0 → a.seasonNumber ≤ b.seasonNumber)
    ∧ (a.seasonNumber = b.seasonNumber → a.number ≤ b.number) := by
  have hp := sortEpisodes_pairwise es
  rw [List.pairwise_iff_get] at hp
  obtain ⟨hj, rfl⟩ := List.get?_eq_some.mp hb
  obtain ⟨hi, rfl⟩ := List.get?_eq_some.mp ha
  have hle := hp ⟨i, hi⟩ ⟨j, hj⟩ hij
  rw [episodeLE, decide_eq_true_eq] at hle
  unfold episodeCompare at hle
  refine ⟨fun h0 => ?_, fun hn1 hn2 => ?_, fun heq => ?_⟩ <;>
    split_ifs at hle <;> omega

-- C6 witness: a concrete three-episode list (a special, a season 2
-- episode, a season 1 episode) sorts to seasons 1, 2, then 0 last.
unseal List.merge List.mergeSort in
theorem c6_witness :
    (0 : Nat) < 2
    ∧ (sortEpisodes [⟨1, 0, 1, none⟩, ⟨2, 2, 5, none⟩, ⟨3, 1, 2, none⟩]).get? 0
        = some ⟨3, 1, 2, none⟩
    ∧ (sortEpisodes [⟨1, 0, 1, none⟩, ⟨2, 2, 5, none⟩, ⟨3, 1, 2, none⟩]).get? 2
        = some ⟨1, 0, 1, none⟩
    ∧ (((⟨3, 1, 2, none⟩ : Episode).seasonNumber = 0
          → (⟨1, 0, 1, none⟩ : Episode).seasonNumber = 0)
      ∧ ((⟨3, 1, 2, none⟩ : Episode).seasonNumber ≠ 0
          → (⟨1, 0, 1, none⟩ : Episode).seasonNumber ≠ 0
          → (⟨3, 1, 2, none⟩ : Episode).seasonNumber
              ≤ (⟨1, 0, 1, none⟩ : Episode).seasonNumber)
      ∧ ((⟨3, 1, 2, none⟩ : Episode).seasonNumber
            = (⟨1, 0, 1, none⟩ : Episode).seasonNumber
          → (⟨3, 1, 2, none⟩ : Episode).number
              ≤ (⟨1, 0, 1, none⟩ : Episode).number)) :=
  ⟨by decide, by decide, by decide,
   c6_episode_order [⟨1, 0, 1, none⟩, ⟨2, 2, 5, none⟩, ⟨3, 1, 2, none⟩] 0 2
     ⟨3, 1, 2, none⟩ ⟨1, 0, 1, none⟩ (by decide) (by decide) (by decide)⟩

/-! ### Path helpers

Translations of the `node:path` operations used by `main`, for POSIX
separators on the plain enumerated file paths the loop meets (no
trailing slashes, no dot segments). Character 47 is the slash. -/

/-- Translation of `path.basename(file, '.mkv')`: the last path
component, with a trailing `.mkv` removed when it is a proper suffix. -/
def basenameNoMkv (p : JStr) : JStr :=
  let base := (p.reverse.takeWhile (fun c => c != 47)).reverse
  if (str ".mkv") <:+ base ∧ 4 < base.length then base.take (base.length - 4)
  else base

/-- Translation of `path.dirname`. -/
def dirname (p : JStr) : JStr :=
  if p.contains 47 then
    let d := ((p.reverse.dropWhile (fun c => c != 47)).tail).reverse
    if d = [] then [47] else d
  else str "."

/-- Translation of `path.join(dir, name)` for a directory joined with
a plain file name; `path.join('.', name)` normalizes to `name`. -/
def pathJoin (dir name : JStr) : JStr :=
  if dir = str "." then name else dir ++ [47] ++ name

/-! ### Number formatting -/

/-- Decimal digit string of a natural number. -/
def natDecimal (n : Nat) : JStr :=
  (Nat.toDigits 10 n).map Char.toNat

/-- Translation of
`n.toLocaleString(undefined, { minimumIntegerDigits: 2 })`: decimal
digits zero-padded on the left to at least two digits.  Locale
grouping separators, which the default locale inserts only for
`n >= 1000`, are not modelled. -/
def toLocaleMin2 (n : Int) : JStr :=
  let d := natDecimal n.natAbs
  let padded := List.replicate (2 - d.length) 48 ++ d
  if n < 0 then 45 :: padded else padded

/-- Translation of the template literal building `properEpisodeName`:
`"{series} S{season:02}E{episode:02} {name}"`. -/
def properEpisodeName (seriesName : JStr) (ep : Episode) (nm : JStr) : JStr :=
  seriesName ++ str " S" ++ toLocaleMin2 ep.seasonNumber ++ str "E"
    ++ toLocaleMin2 ep.number ++ str " " ++ nm

/-! ### Filename sanitization -/

/-- Membership in the JavaScript regex class `\s` (whitespace). -/
def isJsSpace (c : Nat) : Bool :=
  decide (c = 9 ∨ c = 10 ∨ c = 11 ∨ c = 12 ∨ c = 13 ∨ c = 32 ∨ c = 160
    ∨ c = 5760 ∨ (8192 ≤ c ∧ c ≤ 8202) ∨ c = 8232 ∨ c = 8233 ∨ c = 8239
    ∨ c = 8287 ∨ c = 12288 ∨ c = 65279)

/-- Translation of `.replace(/[^a-zA-Z0-9\s-]/g, '')` applied to the
proper episode name before appending `.mkv`. -/
def sanitizeFileName (s : JStr) : JStr :=
  s.filter (fun c => isAlnumCode c || isJsSpace c || c == 45)

/-- Sanitizer following the words of the spec rather than the code:
the spec says characters outside `[A-Za-z0-9 \-]` (letters, digits,
the space, the hyphen) are removed, whereas the code keeps every `\s`
whitespace character.  Used to compare the two for claim C7. -/
def specSanitize (s : JStr) : JStr :=
  s.filter (fun c => isAlnumCode c || c == 32 || c == 45)

/-! ### Candidate filters -/

/-- Body of the `exactMatches` filter: normalized base name equals the
normalized episode name. -/
def isExactMatch (key : JStr) (file : JStr) : Bool :=
  simplify (basenameNoMkv file) == key

/-- The `exactMatches` list for one episode over the current pool. -/
def exactMatchesOf (key : JStr) (pool : List JStr) : List JStr :=
  pool.filter (isExactMatch key)

/-- Body of the `similarMatches` filter: edit distance below 3, or
substring containment in either direction. -/
def isSimilarMatch (key : JStr) (file : JStr) : Bool :=
  let fn := simplify (basenameNoMkv file)
  isDistanceLessThan key fn 3 || decide (fn <:+: key) || decide (key <:+: fn)

/-- The `similarMatches` list for one episode over the current pool. -/
def similarMatchesOf (key : JStr) (pool : List JStr) : List JStr :=
  pool.filter (isSimilarMatch key)

/-! ### The matching orchestrator

Model of the `for (const episode of episodes)` loop of `main`.  The
interactive `inquirer` prompts are modelled by an oracle giving, for
each prompt in order, either the index of the presented choice the
collaborator picks or `none` for the explicit "None of the above"
entry. -/

/-- Model of the inquirer list prompt: the collaborator picks one of
the presented candidates (by index) or "None of the above". -/
def selectFrom (cands : List JStr) (r : Option Nat) : Option JStr :=
  match r with
  | none => none
  | some k => cands.get? k

/-- Observable outcome of processing one episode: skipped for a
missing name, unmatched (with the candidate sets that were built), or
matched to a file (with the exact set and, when it was computed, the
similar set). -/
inductive EpOutcome where
  | skipped : EpOutcome
  | unmatched : JStr → List JStr → List JStr → EpOutcome
  | matched : JStr → JStr → List JStr → Option (List JStr) → EpOutcome
deriving DecidableEq

/-- The exact candidate set recorded in an outcome. -/
def exactOf : EpOutcome → List JStr
  | .skipped => []
  | .unmatched _ e _ => e
  | .matched _ _ e _ => e

/-- The similar candidate set recorded in an outcome (empty when it
was never computed). -/
def similarOf : EpOutcome → List JStr
  | .skipped => []
  | .unmatched _ _ s => s
  | .matched _ _ _ s => s.getD []

/-- Result of one loop iteration: the outcome, the pool and prompt
counter afterwards, and the `fs.renameSync` calls performed. -/
structure StepResult where
  outcome : EpOutcome
  pool : List JStr
  nextPrompt : Nat
  performed : List (JStr × JStr)
deriving DecidableEq

/-- The exact-match stage: a single exact match is taken directly
(`exactMatches.length == 1`), several trigger a prompt, none leaves
the selection empty. -/
def exactStageSelect (exact : List JStr) (oracle : Nat → Option Nat) (k : Nat) :
    Option JStr × Nat :=
  if exact.length = 1 then (exact.head?, k)
  else if 1 < exact.length then (selectFrom exact (oracle k), k + 1)
  else (none, k)

/-- Translation of one iteration of the loop body of `main` (lines
77-196): skip on a falsy name, exact stage, similar fallback when no
file was selected, warning/recording when still unselected, otherwise
rename (gated by `--test-run`) and pool removal. -/
def processEpisode (seriesName : JStr) (isTestRun : Bool)
    (oracle : Nat → Option Nat) (ep : Episode) (pool : List JStr) (k : Nat) :
    StepResult :=
  match ep.name with
  | none => ⟨.skipped, pool, k, []⟩
  | some nm =>
    if nm = [] then ⟨.skipped, pool, k, []⟩
    else
      let properName := properEpisodeName seriesName ep nm
      let key := simplify nm
      let exact := exactMatchesOf key pool
      match exactStageSelect exact oracle k with
      | (some f, k1) =>
          let newFileName := sanitizeFileName properName ++ str ".mkv"
          let newFilePath := pathJoin (dirname f) newFileName
          ⟨.matched f newFilePath exact none,
            pool.filter (fun g => g != f), k1,
            if isTestRun then [] else [(f, newFilePath)]⟩
      | (none, k1) =>
          let similar := similarMatchesOf key pool
          match (if 0 < similar.length then (selectFrom similar (oracle k1), k1 + 1)
                 else ((none : Option JStr), k1)) with
          | (some f, k2) =>
              let newFileName := sanitizeFileName properName ++ str ".mkv"
              let newFilePath := pathJoin (dirname f) newFileName
              ⟨.matched f newFilePath exact (some similar),
                pool.filter (fun g => g != f), k2,
                if isTestRun then [] else [(f, newFilePath)]⟩
          | (none, k2) => ⟨.unmatched properName exact similar, pool, k2, []⟩

/-- Aggregate result of a run: per-episode outcomes, the
`episodesWithNoMatches` list, the final pool (reported as unmatched
files), the rename proposals, the performed renames, and the pool seen
before each episode (with the final pool last). -/
structure RunResult where
  outcomes : List EpOutcome
  unmatchedEpisodes : List JStr
  unmatchedFiles : List JStr
  proposals : List (JStr × JStr)
  performed : List (JStr × JStr)
  pools : List (List JStr)
deriving DecidableEq

/-- The episode loop of `main`: threads the pool and the prompt
counter through `processEpisode` over the episode list. -/
def runLoop (seriesName : JStr) (isTestRun : Bool) (oracle : Nat → Option Nat) :
    List Episode → List JStr → Nat → RunResult
  | [], pool, _ => ⟨[], [], pool, [], [], [pool]⟩
  | ep :: eps, pool, k =>
      let s := processEpisode seriesName isTestRun oracle ep pool k
      let rest := runLoop seriesName isTestRun oracle eps s.pool s.nextPrompt
      ⟨s.outcome :: rest.outcomes,
        (match s.outcome with
          | .unmatched p _ _ => [p]
          | _ => []) ++ rest.unmatchedEpisodes,
        rest.unmatchedFiles,
        (match s.outcome with
          | .matched f np _ _ => [(f, np)]
          | _ => []) ++ rest.proposals,
        s.performed ++ rest.performed,
        pool :: rest.pools⟩

/-! ### Step-level lemmas -/

theorem selectFrom_mem (cands : List JStr) (r : Option Nat) (f : JStr)
    (h : selectFrom cands r = some f) : f ∈ cands := by
  cases r with
  | none => simp [selectFrom] at h
  | some k => exact List.get?_mem h

theorem exactStageSelect_mem (l : List JStr) (o : Nat → Option Nat) (k : Nat)
    (f : JStr) (k1 : Nat) (h : exactStageSelect l o k = (some f, k1)) : f ∈ l := by
  unfold exactStageSelect at h
  split_ifs at h
  · rw [Prod.mk.injEq] at h
    cases l with
    | nil => simp at h
    | cons a l => simp at h; simp [h.1]
  · rw [Prod.mk.injEq] at h
    exact selectFrom_mem _ _ _ h.1
  · simp at h

theorem exactMatchesOf_subset (key : JStr) (pool : List JStr) :
    ∀ x ∈ exactMatchesOf key pool, x ∈ pool := by
  intro x hx
  unfold exactMatchesOf at hx
  exact List.mem_of_mem_filter hx

theorem similarMatchesOf_subset (key : JStr) (pool : List JStr) :
    ∀ x ∈ similarMatchesOf key pool, x ∈ pool := by
  intro x hx
  unfold similarMatchesOf at hx
  exact List.mem_of_mem_filter hx

/-- Full case analysis of one loop iteration: either the episode is
skipped (falsy name, nothing changes), or a file from the pool is
matched (with the recorded new path and candidate sets), or the
episode is recorded unmatched (pool unchanged). -/
theorem processEpisode_cases (sn : JStr) (tr : Bool) (o : Nat → Option Nat)
    (ep : Episode) (pool : List JStr) (k : Nat) :
    (processEpisode sn tr o ep pool k = ⟨.skipped, pool, k, []⟩
      ∧ (ep.name = none ∨ ep.name = some []))
    ∨ (∃ nm f k2 similarOpt,
        ep.name = some nm ∧ nm ≠ []
        ∧ f ∈ pool
        ∧ processEpisode sn tr o ep pool k
            = ⟨.matched f (pathJoin (dirname f)
                  (sanitizeFileName (properEpisodeName sn ep nm) ++ str ".mkv"))
                (exactMatchesOf (simplify nm) pool) similarOpt,
               pool.filter (fun g => g != f), k2,
               if tr then [] else [(f, pathJoin (dirname f)
                  (sanitizeFileName (properEpisodeName sn ep nm) ++ str ".mkv"))]⟩
        ∧ (similarOpt = none ∨ similarOpt = some (similarMatchesOf (simplify nm) pool)))
    ∨ (∃ nm k2,
        ep.name = some nm ∧ nm ≠ []
        ∧ processEpisode sn tr o ep pool k
            = ⟨.unmatched (properEpisodeName sn ep nm)
                (exactMatchesOf (simplify nm) pool)
                (similarMatchesOf (simplify nm) pool), pool, k2, []⟩) := by
  rcases hn : ep.name with _ | nm
  · exact Or.inl ⟨by simp [processEpisode, hn], Or.inl rfl⟩
  · by_cases hnm : nm = []
    · refine Or.inl ⟨by simp [processEpisode, hn, hnm], Or.inr ?_⟩
      rw [hnm]
    · rcases hs : exactStageSelect (exactMatchesOf (simplify nm) pool) o k with ⟨s1, k1⟩
      cases s1 with
      | some f =>
          refine Or.inr (Or.inl ⟨nm, f, k1, none, rfl, hnm, ?_, ?_, Or.inl rfl⟩)
          · exact exactMatchesOf_subset _ _ _ (exactStageSelect_mem _ _ _ _ _ hs)
          · simp [processEpisode, hn, hnm, hs]
      | none =>
          by_cases hl : 0 < (similarMatchesOf (simplify nm) pool).length
          · rcases hsel : selectFrom (similarMatchesOf (simplify nm) pool) (o k1) with _ | f
            · refine Or.inr (Or.inr ⟨nm, k1 + 1, rfl, hnm, ?_⟩)
              simp [processEpisode, hn, hnm, hs, hl, hsel]
            · refine Or.inr (Or.inl ⟨nm, f, k1 + 1,
                some (similarMatchesOf (simplify nm) pool), rfl, hnm, ?_, ?_, Or.inr rfl⟩)
              · exact similarMatchesOf_subset _ _ _ (selectFrom_mem _ _ _ hsel)
              · simp [processEpisode, hn, hnm, hs, hl, hsel]
          · refine Or.inr (Or.inr ⟨nm, k1, rfl, hnm, ?_⟩)
            simp [processEpisode, hn, hnm, hs, hl]

theorem processEpisode_pool_subset (sn : JStr) (tr : Bool) (o : Nat → Option Nat)
    (ep : Episode) (pool : List JStr) (k : Nat) :
    ∀ x ∈ (processEpisode sn tr o ep pool k).pool, x ∈ pool := by
  rcases processEpisode_cases sn tr o ep pool k with ⟨heq, -⟩ |
    ⟨nm, f, k2, so, hnm, hne, hf, heq, -⟩ | ⟨nm, k2, hnm, hne, heq⟩ <;>
    rw [heq] <;> intro x hx
  · exact hx
  · exact List.mem_of_mem_filter hx
  · exact hx

theorem processEpisode_exact_subset (sn : JStr) (tr : Bool) (o : Nat → Option Nat)
    (ep : Episode) (pool : List JStr) (k : Nat) :
    ∀ x ∈ exactOf (processEpisode sn tr o ep pool k).outcome, x ∈ pool := by
  rcases processEpisode_cases sn tr o ep pool k with ⟨heq, -⟩ |
    ⟨nm, f, k2, so, hnm, hne, hf, heq, -⟩ | ⟨nm, k2, hnm, hne, heq⟩ <;>
    rw [heq] <;> intro x hx
  · simp [exactOf] at hx
  · exact exactMatchesOf_subset _ _ _ (by simpa [exactOf] using hx)
  · exact exactMatchesOf_subset _ _ _ (by simpa [exactOf] using hx)

theorem processEpisode_similar_subset (sn : JStr) (tr : Bool) (o : Nat → Option Nat)
    (ep : Episode) (pool : List JStr) (k : Nat) :
    ∀ x ∈ similarOf (processEpisode sn tr o ep pool k).outcome, x ∈ pool := by
  rcases processEpisode_cases sn tr o ep pool k with ⟨heq, -⟩ |
    ⟨nm, f, k2, so, hnm, hne, hf, heq, hso⟩ | ⟨nm, k2, hnm, hne, heq⟩ <;>
    rw [heq] <;> intro x hx
  · simp [similarOf] at hx
  · rcases hso with rfl | rfl
    · simp [similarOf] at hx
    · exact similarMatchesOf_subset _ _ _ (by simpa [similarOf] using hx)
  · exact similarMatchesOf_subset _ _ _ (by simpa [similarOf] using hx)

theorem processEpisode_matched_not_in_pool (sn : JStr) (tr : Bool)
    (o : Nat → Option Nat) (ep : Episode) (pool : List JStr) (k : Nat)
    (f np : JStr) (e : List JStr) (s : Option (List JStr))
    (h : (processEpisode sn tr o ep pool k).outcome = .matched f np e s) :
    f ∉ (processEpisode sn tr o ep pool k).pool := by
  rcases processEpisode_cases sn tr o ep pool k with ⟨heq, -⟩ |
    ⟨nm, f', k2, so, hnm, hne, hf', heq, -⟩ | ⟨nm, k2, hnm, hne, heq⟩
  · rw [heq] at h; simp at h
  · rw [heq] at h ⊢
    simp only [EpOutcome.matched.injEq] at h
    obtain ⟨rfl, -, -, -⟩ := h
    intro hmem
    rw [List.mem_filter] at hmem
    simp at hmem
  · rw [heq] at h; simp at h

/-- The test-run flag changes nothing in a step but the performed
renames, which it empties. -/
theorem processEpisode_flag (sn : JStr) (o : Nat → Option Nat) (ep : Episode)
    (pool : List JStr) (k : Nat) :
    processEpisode sn true o ep pool k
      = ⟨(processEpisode sn false o ep pool k).outcome,
         (processEpisode sn false o ep pool k).pool,
         (processEpisode sn false o ep pool k).nextPrompt, []⟩ := by
  rcases hn : ep.name with _ | nm
  · simp [processEpisode, hn]
  · by_cases hnm : nm = []
    · simp [processEpisode, hn, hnm]
    · rcases hs : exactStageSelect (exactMatchesOf (simplify nm) pool) o k with ⟨s1, k1⟩
      cases s1 with
      | some f => simp [processEpisode, hn, hnm, hs]
      | none =>
          by_cases hl : 0 < (similarMatchesOf (simplify nm) pool).length
          · rcases hsel : selectFrom (similarMatchesOf (simplify nm) pool) (o k1) with _ | f
            · simp [processEpisode, hn, hnm, hs, hl, hsel]
            · simp [processEpisode, hn, hnm, hs, hl, hsel]
          · simp [processEpisode, hn, hnm, hs, hl]

/-! ### Run-level lemmas -/

/-- Candidate sets recorded in any outcome of a run are drawn from the
initial pool of that run. -/
theorem runLoop_outcome_subset (sn : JStr) (tr : Bool) (o : Nat → Option Nat) :
    ∀ (eps : List Episode) (pool : List JStr) (k : Nat),
      ∀ oc ∈ (runLoop sn tr o eps pool k).outcomes,
        (∀ x ∈ exactOf oc, x ∈ pool) ∧ (∀ x ∈ similarOf oc, x ∈ pool) := by
  intro eps
  induction eps with
  | nil => intro pool k oc hoc; simp [runLoop] at hoc
  | cons ep eps ih =>
      intro pool k oc hoc
      have hoc2 : oc = (processEpisode sn tr o ep pool k).outcome
          ∨ oc ∈ (runLoop sn tr o eps (processEpisode sn tr o ep pool k).pool
              (processEpisode sn tr o ep pool k).nextPrompt).outcomes := by
        simpa [runLoop] using hoc
      rcases hoc2 with rfl | hoc2
      · exact ⟨processEpisode_exact_subset sn tr o ep pool k,
          processEpisode_similar_subset sn tr o ep pool k⟩
      · have h2 := ih _ _ oc hoc2
        exact ⟨fun x hx => processEpisode_pool_subset sn tr o ep pool k x (h2.1 x hx),
          fun x hx => processEpisode_pool_subset sn tr o ep pool k x (h2.2 x hx)⟩

/-! ### Claim theorems about the orchestrator -/

/-- C3: once an episode's processing matches a file, that file is
absent from every later episode's exact and similar candidate sets in
the same run (no double-matching). -/
theorem c3_no_double_matching (sn : JStr) (tr : Bool) (o : Nat → Option Nat) :
    ∀ (eps : List Episode) (pool : List JStr) (k i j : Nat)
      (f np : JStr) (e : List JStr) (s : Option (List JStr)) (ocj : EpOutcome),
      i < j
      → (runLoop sn tr o eps pool k).outcomes.get? i = some (.matched f np e s)
      → (runLoop sn tr o eps pool k).outcomes.get? j = some ocj
      → f ∉ exactOf ocj ∧ f ∉ similarOf ocj := by
  intro eps
  induction eps with
  | nil =>
      intro pool k i j f np e s ocj hij hi hj
      simp [runLoop] at hi
  | cons ep eps ih =>
      intro pool k i j f np e s ocj hij hi hj
      have houts : (runLoop sn tr o (ep :: eps) pool k).outcomes
          = (processEpisode sn tr o ep pool k).outcome
            :: (runLoop sn tr o eps (processEpisode sn tr o ep pool k).pool
                (processEpisode sn tr o ep pool k).nextPrompt).outcomes := rfl
      rw [houts] at hi hj
      cases j with
      | zero => omega
      | succ j2 =>
          rw [List.get?_cons_succ] at hj
          cases i with
          | zero =>
              rw [List.get?_cons_zero, Option.some.injEq] at hi
              have hnot := processEpisode_matched_not_in_pool sn tr o ep pool k f np e s hi
              have hmem : ocj ∈ (runLoop sn tr o eps
                  (processEpisode sn tr o ep pool k).pool
                  (processEpisode sn tr o ep pool k).nextPrompt).outcomes :=
                List.get?_mem hj
              have hsub := runLoop_outcome_subset sn tr o eps _ _ ocj hmem
              exact ⟨fun hx => hnot (hsub.1 f hx), fun hx => hnot (hsub.2 f hx)⟩
          | succ i2 =>
              rw [List.get?_cons_succ] at hi
              exact ih _ _ i2 j2 f np e s ocj (by omega) hi hj

/-- C3 witness: a concrete two-episode run where the first episode
matches `d/ab.mkv`; it is absent from the second episode's candidate
sets. -/
theorem c3_witness :
    (0 : Nat) < 1
    ∧ str "d/ab.mkv" ∉ exactOf (EpOutcome.matched (str "d/abx.mkv")
        (str "d/s S01E02 abx.mkv") [str "d/abx.mkv"] none)
    ∧ str "d/ab.mkv" ∉ similarOf (EpOutcome.matched (str "d/abx.mkv")
        (str "d/s S01E02 abx.mkv") [str "d/abx.mkv"] none) := by
  refine ⟨Nat.zero_lt_one, ?_⟩
  exact c3_no_double_matching (str "s") false (fun _ => none)
    [⟨1, 1, 1, some (str "ab")⟩, ⟨2, 1, 2, some (str "abx")⟩]
    [str "d/ab.mkv", str "d/abx.mkv"] 0 0 1
    (str "d/ab.mkv") (str "d/s S01E01 ab.mkv") [str "d/ab.mkv"] none
    (EpOutcome.matched (str "d/abx.mkv") (str "d/s S01E02 abx.mkv")
      [str "d/abx.mkv"] none)
    (by decide) (by rfl) (by rfl)

/-- C8: an episode with an absent or empty display name is skipped: it
is recorded neither as a match nor in the unmatched-episodes list, and
the pool, prompt counter and everything downstream are exactly as if
only the remaining episodes were processed. -/
theorem c8_skipped_episode (sn : JStr) (tr : Bool) (o : Nat → Option Nat)
    (ep : Episode) (eps : List Episode) (pool : List JStr) (k : Nat)
    (h : ep.name = none ∨ ep.name = some []) :
    runLoop sn tr o (ep :: eps) pool k
      = ⟨.skipped :: (runLoop sn tr o eps pool k).outcomes,
         (runLoop sn tr o eps pool k).unmatchedEpisodes,
         (runLoop sn tr o eps pool k).unmatchedFiles,
         (runLoop sn tr o eps pool k).proposals,
         (runLoop sn tr o eps pool k).performed,
         pool :: (runLoop sn tr o eps pool k).pools⟩ := by
  have hstep : processEpisode sn tr o ep pool k = ⟨.skipped, pool, k, []⟩ := by
    rcases h with h | h <;> simp [processEpisode, h]
  simp [runLoop, hstep]

/-- C8 witness at a concrete nameless episode. -/
theorem c8_witness :
    ((⟨5, 1, 3, none⟩ : Episode).name = none ∨ (⟨5, 1, 3, none⟩ : Episode).name = some [])
    ∧ runLoop (str "s") false (fun _ => none) [⟨5, 1, 3, none⟩] [str "d/x.mkv"] 0
      = ⟨.skipped :: (runLoop (str "s") false (fun _ => none) [] [str "d/x.mkv"] 0).outcomes,
         (runLoop (str "s") false (fun _ => none) [] [str "d/x.mkv"] 0).unmatchedEpisodes,
         (runLoop (str "s") false (fun _ => none) [] [str "d/x.mkv"] 0).unmatchedFiles,
         (runLoop (str "s") false (fun _ => none) [] [str "d/x.mkv"] 0).proposals,
         (runLoop (str "s") false (fun _ => none) [] [str "d/x.mkv"] 0).performed,
         [str "d/x.mkv"] :: (runLoop (str "s") false (fun _ => none) [] [str "d/x.mkv"] 0).pools⟩ :=
  ⟨Or.inl rfl,
   c8_skipped_episode (str "s") false (fun _ => none) ⟨5, 1, 3, none⟩ []
     [str "d/x.mkv"] 0 (Or.inl rfl)⟩

/-- C10: the test-run flag has no influence on outcomes, unmatched
lists, proposals or pool evolution, and under it no rename is ever
performed. -/
theorem c10_test_run_flag (sn : JStr) (o : Nat → Option Nat) :
    ∀ (eps : List Episode) (pool : List JStr) (k : Nat),
      (runLoop sn true o eps pool k).outcomes = (runLoop sn false o eps pool k).outcomes
      ∧ (runLoop sn true o eps pool k).unmatchedEpisodes
          = (runLoop sn false o eps pool k).unmatchedEpisodes
      ∧ (runLoop sn true o eps pool k).unmatchedFiles
          = (runLoop sn false o eps pool k).unmatchedFiles
      ∧ (runLoop sn true o eps pool k).proposals = (runLoop sn false o eps pool k).proposals
      ∧ (runLoop sn true o eps pool k).pools = (runLoop sn false o eps pool k).pools
      ∧ (runLoop sn true o eps pool k).performed = [] := by
  intro eps
  induction eps with
  | nil => intro pool k; simp [runLoop]
  | cons ep eps ih =>
      intro pool k
      have hf := processEpisode_flag sn o ep pool k
      obtain ⟨h1, h2, h3, h4, h5, h6⟩ :=
        ih (processEpisode sn false o ep pool k).pool
          (processEpisode sn false o ep pool k).nextPrompt
      refine ⟨?_, ?_, ?_, ?_, ?_, ?_⟩ <;>
        simp [runLoop, hf, h1, h2, h3, h4, h5, h6]

/-- C7 (amended): every rename proposal produced by a run targets the
path formed from the file's directory and the sanitized proper episode
name (characters outside letters, digits, `\s` whitespace and hyphen
removed) with the `.mkv` extension. -/
theorem c7_proposal_format (sn : JStr) (tr : Bool) (o : Nat → Option Nat) :
    ∀ (eps : List Episode) (pool : List JStr) (k : Nat) (f np : JStr),
      (f, np) ∈ (runLoop sn tr o eps pool k).proposals
      → ∃ ep, ep ∈ eps ∧ ∃ nm, ep.name = some nm ∧ nm ≠ []
          ∧ np = pathJoin (dirname f)
              (sanitizeFileName (properEpisodeName sn ep nm) ++ str ".mkv") := by
  intro eps
  induction eps with
  | nil => intro pool k f np h; simp [runLoop] at h
  | cons ep eps ih =>
      intro pool k f np h
      have hprops : (runLoop sn tr o (ep :: eps) pool k).proposals
          = (match (processEpisode sn tr o ep pool k).outcome with
              | .matched f2 np2 _ _ => [(f2, np2)]
              | _ => []) ++ (runLoop sn tr o eps
                (processEpisode sn tr o ep pool k).pool
                (processEpisode sn tr o ep pool k).nextPrompt).proposals := rfl
      rw [hprops] at h
      rcases List.mem_append.mp h with h1 | h2
      · rcases processEpisode_cases sn tr o ep pool k with ⟨heq, -⟩ |
          ⟨nm, f2, k2, so, hnm, hne, hf2, heq, -⟩ | ⟨nm, k2, hnm, hne, heq⟩
        · rw [heq] at h1; simp at h1
        · rw [heq] at h1
          simp only [List.mem_singleton, Prod.mk.injEq] at h1
          obtain ⟨rfl, rfl⟩ := h1
          exact ⟨ep, List.mem_cons_self ep eps, nm, hnm, hne, rfl⟩
        · rw [heq] at h1; simp at h1
      · obtain ⟨ep2, hep2, nm, hnm, hne, hnp⟩ := ih _ _ _ _ h2
        exact ⟨ep2, List.mem_cons_of_mem ep hep2, nm, hnm, hne, hnp⟩

/-- C7 witness: a concrete one-episode run whose single proposal has
the stated shape. -/
theorem c7_witness :
    (str "d/ab.mkv", str "d/s S01E01 ab.mkv")
        ∈ (runLoop (str "s") false (fun _ => none)
            [⟨1, 1, 1, some (str "ab")⟩] [str "d/ab.mkv"] 0).proposals
    ∧ ∃ ep, ep ∈ [(⟨1, 1, 1, some (str "ab")⟩ : Episode)]
        ∧ ∃ nm, ep.name = some nm ∧ nm ≠ []
        ∧ str "d/s S01E01 ab.mkv" = pathJoin (dirname (str "d/ab.mkv"))
            (sanitizeFileName (properEpisodeName (str "s") ep nm) ++ str ".mkv") :=
  ⟨by decide,
   c7_proposal_format (str "s") false (fun _ => none)
     [⟨1, 1, 1, some (str "ab")⟩] [str "d/ab.mkv"] 0
     (str "d/ab.mkv") (str "d/s S01E01 ab.mkv") (by decide)⟩

/-- C7 counterexample: the claim says every character outside
`[A-Za-z0-9 \-]` is removed from the proposed filename, but the code's
regex keeps every `\s` whitespace character; an episode name with a
tab yields a proposal containing the tab, differing from the claim's
formula. -/
theorem c7_counterexample :
    (runLoop (str "S") false (fun _ => none)
        [⟨1, 1, 2, some (str "A\tB")⟩] [str "d/AB.mkv"] 0).proposals
      = [(str "d/AB.mkv", pathJoin (dirname (str "d/AB.mkv"))
          (sanitizeFileName (properEpisodeName (str "S")
            ⟨1, 1, 2, some (str "A\tB")⟩ (str "A\tB")) ++ str ".mkv"))]
    ∧ (runLoop (str "S") false (fun _ => none)
        [⟨1, 1, 2, some (str "A\tB")⟩] [str "d/AB.mkv"] 0).proposals
      ≠ [(str "d/AB.mkv", pathJoin (dirname (str "d/AB.mkv"))
          (specSanitize (properEpisodeName (str "S")
            ⟨1, 1, 2, some (str "A\tB")⟩ (str "A\tB")) ++ str ".mkv"))] := by
  constructor
  · rfl
  · decide

/-- C2 counterexample: an episode with a non-empty exact candidate set
where the collaborator declines all exact candidates; the similar set
is then computed after all and the episode is matched to a file
outside the exact set. -/
theorem c2_counterexample :
    (processEpisode (str "s") false
        (fun i => if i = 0 then none else if i = 1 then some 2 else none)
        ⟨1, 1, 1, some (str "ab")⟩
        [str "d/a-b.mkv", str "d/a b.mkv", str "d/abc.mkv"] 0).outcome
      = EpOutcome.matched (str "d/abc.mkv")
          (pathJoin (dirname (str "d/abc.mkv"))
            (sanitizeFileName (properEpisodeName (str "s")
              ⟨1, 1, 1, some (str "ab")⟩ (str "ab")) ++ str ".mkv"))
          [str "d/a-b.mkv", str "d/a b.mkv"]
          (some [str "d/a-b.mkv", str "d/a b.mkv", str "d/abc.mkv"])
    ∧ ([str "d/a-b.mkv", str "d/a b.mkv"] : List JStr) ≠ []
    ∧ str "d/abc.mkv" ∉ ([str "d/a-b.mkv", str "d/a b.mkv"] : List JStr) := by
  refine ⟨by rfl, by decide, by decide⟩

/-- C2 (amended): when the exact stage yields a selection — the single
exact candidate, or the collaborator's pick among several — the
episode is matched to that file, which lies in the exact set, and the
similar set is never computed (the outcome records `none` for it). -/
theorem c2_exact_stage_precedence (sn : JStr) (tr : Bool) (o : Nat → Option Nat)
    (ep : Episode) (pool : List JStr) (k : Nat) (nm f : JStr) (k1 : Nat)
    (hnm : ep.name = some nm) (hne : nm ≠ [])
    (hsel : exactStageSelect (exactMatchesOf (simplify nm) pool) o k = (some f, k1)) :
    (processEpisode sn tr o ep pool k).outcome
      = .matched f (pathJoin (dirname f)
          (sanitizeFileName (properEpisodeName sn ep nm) ++ str ".mkv"))
          (exactMatchesOf (simplify nm) pool) none
    ∧ f ∈ exactMatchesOf (simplify nm) pool := by
  constructor
  · simp [processEpisode, hnm, hne, hsel]
  · exact exactStageSelect_mem _ _ _ _ _ hsel

/-- C2 witness at a concrete single-exact-match input. -/
theorem c2_witness :
    (⟨1, 1, 1, some (str "ab")⟩ : Episode).name = some (str "ab")
    ∧ str "ab" ≠ ([] : JStr)
    ∧ exactStageSelect (exactMatchesOf (simplify (str "ab")) [str "d/ab.mkv"])
        (fun _ => none) 0 = (some (str "d/ab.mkv"), 0)
    ∧ ((processEpisode (str "s") false (fun _ => none)
          ⟨1, 1, 1, some (str "ab")⟩ [str "d/ab.mkv"] 0).outcome
        = .matched (str "d/ab.mkv")
            (pathJoin (dirname (str "d/ab.mkv"))
              (sanitizeFileName (properEpisodeName (str "s")
                ⟨1, 1, 1, some (str "ab")⟩ (str "ab")) ++ str ".mkv"))
            (exactMatchesOf (simplify (str "ab")) [str "d/ab.mkv"]) none
      ∧ str "d/ab.mkv" ∈ exactMatchesOf (simplify (str "ab")) [str "d/ab.mkv"]) :=
  ⟨rfl, by decide, by rfl,
   c2_exact_stage_precedence (str "s") false (fun _ => none)
     ⟨1, 1, 1, some (str "ab")⟩ [str "d/ab.mkv"] 0 (str "ab") (str "d/ab.mkv") 0
     rfl (by decide) (by rfl)⟩

end PlexScripts
